import Mathlib

/-!
# Verification of the TCG catalog reconciliation engine

Shallow embedding of the reconciliation logic of the two sync backends:
* the REST backend (`server.js`, WooCommerce batch API), and
* the SSH backend (`runSSHSync` in the companion server file, direct
  database mutation plus WP-CLI creation).

Machine numbers are modelled as `ℚ`/`ℤ`/`ℕ`; strings as Lean `String`.
-/

namespace TcgSync

/-! ## JavaScript string primitives -/

/-- The whitespace class used by JS `trim` / `\s` (restricted to the ASCII
range, which covers every feed field the engine handles). -/
def jsIsSpace (c : Char) : Bool :=
  c = ' ' || c = '\t' || c = '\n' || c = '\r' || c = '\x0b' || c = '\x0c'

/-- JS `String.prototype.trim` on a character list. -/
def jsTrimList (l : List Char) : List Char :=
  ((l.dropWhile jsIsSpace).reverse.dropWhile jsIsSpace).reverse

/-- JS `String.prototype.trim`. -/
def jsTrim (s : String) : String :=
  ⟨jsTrimList s.data⟩

/-- Characters kept by `slugify`'s first `replace`: the complement of the
regex `[^a-z0-9\s-]` (lower-case letter, digit, whitespace or hyphen). -/
def slugAllowed (c : Char) : Bool :=
  ('a' ≤ c && c ≤ 'z') || ('0' ≤ c && c ≤ '9') || jsIsSpace c || c = '-'

/-- `replace(/\s+/g, '-')`: every maximal whitespace run becomes one
hyphen.  The boolean flag records whether the previous character was part
of a run whose hyphen has already been emitted. -/
def collapseWs : Bool → List Char → List Char
  | _, [] => []
  | inRun, c :: rest =>
    if jsIsSpace c then
      (if inRun then [] else ['-']) ++ collapseWs true rest
    else
      c :: collapseWs false rest

/-- `slugify` from both server files:
`text.toLowerCase().trim().replace(/[^a-z0-9\s-]/g,'').replace(/\s+/g,'-')`,
with `''` returned for a falsy (empty) input. -/
def slugify (s : String) : String :=
  if s = "" then ""
  else ⟨collapseWs false ((jsTrimList (s.data.map Char.toLower)).filter slugAllowed)⟩

/-- `slugify(row.subTypeName || 'normal') || 'base'`: the variant-label
slug with its two fallbacks. -/
def subTypeOf (subTypeName : String) : String :=
  let slug := slugify (if subTypeName = "" then "normal" else subTypeName)
  if slug = "" then "base" else slug

/-- The external key: `` `${productId}-${subType}-${abbrev}` ``
(`abbr` is the group abbreviation). -/
def skuOf (productId subTypeName abbr : String) : String :=
  productId ++ "-" ++ subTypeOf subTypeName ++ "-" ++ abbr

/-! ## JS `parseFloat`

Model of the builtin on decimal literals: skip leading whitespace, an
optional sign, digits with an optional fraction and an optional exponent;
`none` stands for `NaN` (no digit could be read). -/

/-- Numeric value of a digit list, most significant first. -/
def natOfDigits (l : List Char) : ℕ :=
  l.foldl (fun n c => 10 * n + (c.toNat - '0'.toNat)) 0

/-- Exponent suffix of a JS float literal (`e`/`E`, optional sign,
digits); an exponent with no digits is not consumed, contributing `0`. -/
def jsExpVal (l : List Char) : ℤ :=
  match l with
  | 'e' :: t => jsExpCore t
  | 'E' :: t => jsExpCore t
  | _ => 0
where
  /-- Signed digits after the exponent marker. -/
  jsExpCore : List Char → ℤ
    | '-' :: d =>
      if d.takeWhile Char.isDigit = [] then 0 else -(natOfDigits (d.takeWhile Char.isDigit) : ℤ)
    | '+' :: d =>
      if d.takeWhile Char.isDigit = [] then 0 else (natOfDigits (d.takeWhile Char.isDigit) : ℤ)
    | d =>
      if d.takeWhile Char.isDigit = [] then 0 else (natOfDigits (d.takeWhile Char.isDigit) : ℤ)

/-- The syntactic pieces of a JS float literal: sign, integer digits,
fraction digits (with their count, for the implied denominator) and the
exponent. -/
structure FloatParts where
  neg : Bool
  intVal : ℕ
  fracVal : ℕ
  fracLen : ℕ
  exp : ℤ
  deriving Repr, DecidableEq

/-- Scanning phase of JS `parseFloat`: `none` when no digit can be read
(the `NaN` case). -/
def jsParseParts (s : String) : Option FloatParts :=
  let l := s.data.dropWhile jsIsSpace
  let neg : Bool := match l with
    | '-' :: _ => true
    | _ => false
  let l1 : List Char := match l with
    | '-' :: t => t
    | '+' :: t => t
    | _ => l
  let intPart := l1.takeWhile Char.isDigit
  let l2 := l1.dropWhile Char.isDigit
  let fracPart : List Char := match l2 with
    | '.' :: t => t.takeWhile Char.isDigit
    | _ => []
  let l3 : List Char := match l2 with
    | '.' :: t => t.dropWhile Char.isDigit
    | _ => l2
  if intPart = [] ∧ fracPart = [] then none
  else
    some ⟨neg, natOfDigits intPart, natOfDigits fracPart, fracPart.length, jsExpVal l3⟩

/-- Numeric value of the scanned pieces. -/
def partsVal (p : FloatParts) : ℚ :=
  (if p.neg then -1 else 1) * ((p.intVal : ℚ) + (p.fracVal : ℚ) / 10 ^ p.fracLen)
    * (10 : ℚ) ^ p.exp

/-- JS `parseFloat`; `none` is `NaN`. -/
def jsParseFloat (s : String) : Option ℚ :=
  (jsParseParts s).map partsVal

/-! ## Feed rows and the sellable filter -/

/-- A parsed feed row (columns accessed by name; a missing column is the
empty string, as `row.col || ''` behaves in the source). -/
structure Row where
  productId : String
  subTypeName : String
  extNumber : String
  marketPrice : String
  deriving Repr, DecidableEq

/-- The `singles` filter of both backends:
`extNum.trim().includes('/') && p.marketPrice && parseFloat(p.marketPrice) > 0`. -/
def sellable (r : Row) : Bool :=
  (jsTrim r.extNumber).data.contains '/' &&
    (!(r.marketPrice = "") &&
      match jsParseFloat r.marketPrice with
      | some q => decide (0 < q)
      | none => false)

/-! ## Price computation -/

/-- `config.MIN_PRICE_COP`. -/
def minPriceCOP : ℤ := 200

/-- `if (priceCOP < config.MIN_PRICE_COP) priceCOP = config.MIN_PRICE_COP`. -/
def clampMin (p : ℤ) : ℤ :=
  if p < minPriceCOP then minPriceCOP else p

/-- REST backend price: `Math.round(parseFloat(row.marketPrice) * trm)`
then the minimum clamp.  JS `Math.round` is `⌊x + 1/2⌋`, which is Lean's
`round`. -/
def priceRest (market trm : ℚ) : ℤ :=
  clampMin (round (market * trm))

/-- SSH backend price: `Math.ceil(parseFloat(row.marketPrice) * trm / 100) * 100`
then the minimum clamp. -/
def priceSSH (market trm : ℚ) : ℤ :=
  clampMin (⌈market * trm / 100⌉ * 100)

/-- Market price of a row as the engine reads it
(`parseFloat(row.marketPrice)`, with `NaN` mapped to `0`; sellable rows
always parse). -/
def marketOf (r : Row) : ℚ :=
  (jsParseFloat r.marketPrice).getD 0

/-! ## Normalized entries and the two differs -/

/-- A normalized catalog entry: the external key together with the
computed local price. -/
structure Entry where
  sku : String
  price : ℤ
  deriving Repr, DecidableEq

/-- Normalization of one sellable row in the SSH backend (key and
computed price; `abbr` is the group abbreviation resolved for the row's
group). -/
def entryOf (trm : ℚ) (abbr : String) (r : Row) : Entry :=
  ⟨skuOf r.productId r.subTypeName abbr, priceSSH (marketOf r) trm⟩

/-- The three possible outcomes of the differ for one entry. -/
inductive Decision where
  | create
  | update
  | skip
  deriving Repr, DecidableEq

/-- SSH-backend differ (`runSSHSync`): a found entry is compared against
the stored price (`Math.abs(existing.price - priceCOP) > 1`); a missing
entry is created only outside prices-only mode. -/
def decideSSH (existing : Option ℚ) (newPrice : ℤ) (pricesOnly : Bool) : Decision :=
  match existing with
  | some oldP => if 1 < |oldP - (newPrice : ℚ)| then .update else .skip
  | none => if pricesOnly then .skip else .create

/-- REST-backend differ (`runSync` in `server.js`): a found SKU is always
pushed to `toUpdate` — the snapshot record `{id, status}` holds no price
and no comparison is made; a missing SKU is created only in full mode. -/
def decideRest (found : Bool) (pricesOnly : Bool) : Decision :=
  if found then .update
  else if pricesOnly then .skip
  else .create

/-! ## Snapshots

The SSH snapshot maps the external key to the stored price (the source
also keeps the numeric `post_id`; operations are modelled keyed by SKU,
which identifies the same record since the snapshot is a key→record
map).  The REST snapshot keeps only the set of SKUs, as its records
`{id, status}` carry no price. -/

/-- SSH snapshot: association list `sku ↦ stored price`. -/
abbrev Snap := List (String × ℚ)

/-- `existingProducts.get(sku)` for the SSH snapshot. -/
def lookupSnap (snap : Snap) (k : String) : Option ℚ :=
  (List.find? (fun kv => kv.1 = k) snap).map (fun kv => kv.2)

/-- Database effect of one price update (`UPDATE … SET meta_value = …
WHERE post_id = id`): every record with the given key takes the new
price. -/
def setPrice : Snap → String → ℚ → Snap
  | [], _, _ => []
  | kv :: t, k, p => (if kv.1 = k then (kv.1, p) else kv) :: setPrice t k p

/-- Database/in-memory effect of one successful create: the new record is
registered with the emitted price. -/
def insertSnap (snap : Snap) (k : String) (p : ℚ) : Snap :=
  snap ++ [(k, p)]

/-! ## SSH group processing -/

/-- The decision loop of one group in `runSSHSync`: each entry is
decided against the in-memory snapshot `mem` and pushed (in feed order)
onto `priceUpdates` (sku and new price) or `newProducts`, or counted as
skipped. -/
def sshGroupDecide (pricesOnly : Bool) (mem : Snap) (es : List Entry) :
    List (String × ℤ) × List Entry × ℕ :=
  ((es.filter (fun e => decideSSH (lookupSnap mem e.sku) e.price pricesOnly = .update)).map
      (fun e => (e.sku, e.price)),
    es.filter (fun e => decideSSH (lookupSnap mem e.sku) e.price pricesOnly = .create),
    es.countP (fun e => decideSSH (lookupSnap mem e.sku) e.price pricesOnly = .skip))

/-- Database effect of the bulk price-update statements of one group
(success path). -/
def applyUpdates (db : Snap) (us : List (String × ℤ)) : Snap :=
  us.foldl (fun d u => setPrice d u.1 (u.2 : ℚ)) db

/-- Snapshot effect of the WP-CLI creates of one group (success path):
each created record is registered with its price. -/
def applyCreates (db : Snap) (ns : List Entry) : Snap :=
  ns.foldl (fun d e => insertSnap d e.sku (e.price : ℚ)) db

/-- One group of the feed: its abbreviation and its raw rows. -/
structure GroupFeed where
  abbr : String
  rows : List Row

/-- Normalized entries of one group: the sellable filter followed by
normalization. -/
def groupEntries (trm : ℚ) (g : GroupFeed) : List Entry :=
  (g.rows.filter sellable).map (entryOf trm g.abbr)

/-- One group step of the SSH engine on the pair
(database state, in-memory snapshot): decisions are made against the
in-memory snapshot; updates touch only the database; creates are
registered in both.  Returns `(created, updated, skipped)` for the group
(success path) and the new pair. -/
def sshGroupStep (pricesOnly : Bool) (st : Snap × Snap) (es : List Entry) :
    (ℕ × ℕ × ℕ) × Snap × Snap :=
  let dec := sshGroupDecide pricesOnly st.2 es
  ((dec.2.1.length, dec.1.length, dec.2.2),
    applyCreates (applyUpdates st.1 dec.1) dec.2.1,
    applyCreates st.2 dec.2.1)

/-- The SSH engine over the whole feed (success path) from an arbitrary
(database, in-memory snapshot) pair: groups processed sequentially,
counters accumulated. -/
def sshEngineFrom (pricesOnly : Bool) (trm : ℚ) (st0 : Snap × Snap) :
    List GroupFeed → (ℕ × ℕ × ℕ) × Snap × Snap
  | [] => ((0, 0, 0), st0)
  | g :: gs =>
    let r := sshGroupStep pricesOnly st0 (groupEntries trm g)
    let rest := sshEngineFrom pricesOnly trm r.2 gs
    ((r.1.1 + rest.1.1, r.1.2.1 + rest.1.2.1, r.1.2.2 + rest.1.2.2), rest.2)

/-- The SSH engine for one run: the in-memory map is initialized from
the same loaded data as the database picture.  Returns the aggregate
`(created, updated, skipped)` and the database state the run leaves
behind. -/
def sshEngine (pricesOnly : Bool) (trm : ℚ) (db : Snap) (feed : List GroupFeed) :
    (ℕ × ℕ × ℕ) × Snap :=
  let res := sshEngineFrom pricesOnly trm (db, db) feed
  (res.1, res.2.1)

/-! ## REST group processing -/

/-- One group step of the REST engine on the in-memory SKU set: a found
SKU is always pushed to `toUpdate`; creates are registered into the map
after the decision loop (`existingProducts.set(p.sku, …)`), so they are
visible to later groups.  Returns `(created, updated, skipped)` and the
new SKU set. -/
def restGroupStep (pricesOnly : Bool) (mem : List String) (skus : List String) :
    (ℕ × ℕ × ℕ) × List String :=
  let creates := skus.filter (fun k => decideRest (mem.contains k) pricesOnly = .create)
  ((creates.length,
    (skus.filter (fun k => decideRest (mem.contains k) pricesOnly = .update)).length,
    (skus.filter (fun k => decideRest (mem.contains k) pricesOnly = .skip)).length),
    mem ++ creates)

/-- SKUs of one group in the REST backend (same key derivation as the
SSH backend). -/
def groupSkus (g : GroupFeed) : List String :=
  (g.rows.filter sellable).map (fun r => skuOf r.productId r.subTypeName g.abbr)

/-- The REST engine over the whole feed (success path): the store state
it leaves behind is the set of SKUs present after the run (updates do not
change SKUs). -/
def restEngine (pricesOnly : Bool) (mem : List String) (feed : List GroupFeed) :
    (ℕ × ℕ × ℕ) × List String :=
  feed.foldl
    (fun acc g =>
      let r := restGroupStep pricesOnly acc.2 (groupSkus g)
      ((acc.1.1 + r.1.1, acc.1.2.1 + r.1.2.1, acc.1.2.2 + r.1.2.2), r.2))
    ((0, 0, 0), mem)

/-! ## Partial-failure bookkeeping (SSH backend) -/

/-- `toUpdate` batching: number of 500-row batches for `n` pending
updates. -/
def updBatchCount (n : ℕ) : ℕ := (n + 499) / 500

/-- Counters produced by the bulk-update phase when the first
`okBatches` statements succeed and the next one (if any) throws: the
single `try` around the batch loop adds the length of every successful
batch to `updated` and at most one error. -/
def sshUpdCounters (n okBatches : ℕ) : ℕ × ℕ :=
  if updBatchCount n ≤ okBatches then (n, 0) else (okBatches * 500, 1)

/-- Outcome of one WP-CLI create attempt: a created id on stdout, the
`SKIP` marker (duplicate), or a thrown error. -/
inductive COut where
  | ok
  | dup
  | err
  deriving Repr, DecidableEq

/-- Counters produced by the create phase under the outcome oracle `f`:
`(created, errors)`. -/
def sshCreateCounters (ns : List Entry) (f : ℕ → COut) : ℕ × ℕ :=
  ((List.range ns.length).countP (fun i => f i = .ok),
    (List.range ns.length).countP (fun i => f i = .err))

/-- Counter deltas `(created, updated, skipped, errors)` contributed by
one group of `runSSHSync`, with the fetch result and the failure oracles
explicit.  A failed fetch (`none`) adds exactly one error and nothing
else (`catch (e) { totalErrors++; continue; }`). -/
def sshGroupDeltas (pricesOnly : Bool) (mem : Snap) (trm : ℚ) (abbr : String)
    (fetch : Option (List Row)) (okBatches : ℕ) (f : ℕ → COut) : ℕ × ℕ × ℕ × ℕ :=
  match fetch with
  | none => (0, 0, 0, 1)
  | some rows =>
    let es := (rows.filter sellable).map (entryOf trm abbr)
    let dec := sshGroupDecide pricesOnly mem es
    let uc := sshUpdCounters dec.1.length okBatches
    let cc := sshCreateCounters dec.2.1 f
    (cc.1, uc.1, dec.2.2, uc.2 + cc.2)

/-! ## Run state and the run coordinator -/

/-- One entry of the in-memory log ring (`{timestamp, msg, type}`). -/
structure LogEntry where
  timestamp : String
  msg : String
  type : String
  deriving Repr, DecidableEq

/-- The shared `syncState` object (the SSH server's superset of fields;
timestamps are opaque strings, `none` standing for `null`). -/
structure SyncState where
  running : Bool
  phase : String
  progress : ℕ
  total : ℕ
  created : ℕ
  updated : ℕ
  skipped : ℕ
  errors : ℕ
  currentSet : String
  logs : List LogEntry
  startTime : Option String
  endTime : Option String
  mode : Option String
  method : Option String
  deriving Repr, DecidableEq

/-- `resetState()`. -/
def resetState : SyncState :=
  { running := false, phase := "idle", progress := 0, total := 0, created := 0,
    updated := 0, skipped := 0, errors := 0, currentSet := "", logs := [],
    startTime := none, endTime := none, mode := none, method := none }

/-- `log(msg, type)`: push the entry, evicting the oldest past the cap
of 1000. -/
def pushLog (s : SyncState) (e : LogEntry) : SyncState :=
  let l := s.logs ++ [e]
  { s with logs := if 1000 < l.length then l.tail else l }

/-- The entry guard of `runSync`: with `running = true` it logs the
warning and returns, starting nothing; the returned value is the state
the guard leaves behind (`none` means the guard passed and the run
proceeds). -/
def runSyncGuard (ts : String) (s : SyncState) : Option SyncState :=
  if s.running then
    some (pushLog s ⟨ts, "⚠️ Sync already running", "warn"⟩)
  else
    none

/-- The `POST /api/sync` route guard: with `running = true` it answers
400 without touching the state.  Returns `(accepted, state)`. -/
def apiSyncRoute (s : SyncState) : Bool × SyncState :=
  if s.running then (false, s) else (true, s)

/-- The REST backend's `catch` (`server.js`): log the error, set
`phase = 'error'` and `running = false`.  `endTime` is not assigned. -/
def restOnError (ts msg : String) (s : SyncState) : SyncState :=
  let s1 := pushLog s ⟨ts, msg, "error"⟩
  { s1 with phase := "error", running := false }

/-- The SSH server's `catch`: log the error, set `phase = 'error'` and
`running = false`, then record `endTime`. -/
def sshOnError (ts msg tEnd : String) (s : SyncState) : SyncState :=
  let s1 := pushLog s ⟨ts, msg, "error"⟩
  { s1 with phase := "error", running := false, endTime := some tEnd }

/-! ## Currency rate provider (`getTRM`) -/

/-- One element of the exchange-rate service's JSON response; `valor` is
`none` when the field is absent (`data[0].valor` is then `undefined`). -/
structure TrmRow where
  valor : Option String

/-- What the fetch of the rate service produced: a thrown failure
(network error or malformed JSON body) or a parsed array. -/
inductive TrmFetch where
  | fail
  | ok (rows : List TrmRow)

/-- `getTRM()`: result value (`none` is `NaN`) together with whether the
fallback warning was logged.  `data[0].valor` on an empty array throws
(caught, default returned); a present first row yields
`parseFloat(data[0].valor)` with no validation — `parseFloat(undefined)`
scans the string `"undefined"`. -/
def getTRM : TrmFetch → Option ℚ × Bool
  | .fail => (some 4200, true)
  | .ok [] => (some 4200, true)
  | .ok (r :: _) => (jsParseFloat (r.valor.getD "undefined"), false)

/-! ## Progress publication during an SSH run

`updateProgress` assigns the given fields on `syncState` and broadcasts
the resulting state; `GET /api/status` returns the same object.  The
constructors below are exactly the field sets `runSSHSync` ever passes
to `updateProgress` before its final counter assignment. -/

/-- One `updateProgress` call of `runSSHSync`. -/
inductive Upd where
  | startingPhase
  | method (m : String)
  | phase (p : String)
  | total (n : ℕ)
  | phaseProg (p : String) (prog : ℕ)
  | progSet (prog : ℕ) (name : String)
  | created (n : ℕ)
  | updated (n : ℕ)
  deriving Repr

/-- `Object.assign(syncState, updates)`. -/
def applyUpd (s : SyncState) : Upd → SyncState
  | .startingPhase => { s with phase := "starting" }
  | .method m => { s with method := some m }
  | .phase p => { s with phase := p }
  | .total n => { s with total := n }
  | .phaseProg p prog => { s with phase := p, progress := prog }
  | .progSet prog name => { s with progress := prog, currentSet := name }
  | .created n => { s with created := n }
  | .updated n => { s with updated := n }

/-- The activity of one group as it reaches `updateProgress`: the group
name and the running totals published after each successful update batch
and after each successful create. -/
structure GroupActivity where
  name : String
  updTotals : List ℕ
  createTotals : List ℕ

/-- The `updateProgress` calls issued while processing one group. -/
def groupUpds (i : ℕ) (g : GroupActivity) : List Upd :=
  Upd.progSet (i + 1) g.name :: (g.updTotals.map Upd.updated ++ g.createTotals.map Upd.created)

/-- All `updateProgress` calls of a full `runSSHSync` invocation, in
order, up to (not including) the final direct assignment of the four
counters. -/
def sshRunUpds (gs : List GroupActivity) : List Upd :=
  [Upd.startingPhase, Upd.method "ssh", Upd.phase "downloading", Upd.total gs.length,
    Upd.phase "fetching", Upd.phaseProg "syncing" 0] ++
  (((List.range gs.length).zip gs).map (fun p => groupUpds p.1 p.2)).flatten

/-- The sequence of states broadcast to subscribers (and served by
`GET /api/status`) while the updates run: state after each assignment. -/
def broadcastStates (s : SyncState) : List Upd → List SyncState
  | [] => []
  | u :: us =>
    let s' := applyUpd s u
    s' :: broadcastStates s' us

/-- The state started by `runSync` before handing over to `runSSHSync`:
reset, `running = true`, mode/method/startTime recorded. -/
def startedState (mode meth t0 : String) : SyncState :=
  { resetState with
    running := true
    mode := some mode
    method := some meth
    startTime := some t0 }

/-- The final counter assignment at the end of `runSSHSync`
(`syncState.created = totalCreated; …`). -/
def finalAssign (s : SyncState) (c u sk er : ℕ) : SyncState :=
  { s with created := c, updated := u, skipped := sk, errors := er }

/-- `GET /api/status` serves the shared state object unmodified. -/
def apiStatus (s : SyncState) : SyncState := s

/-! ## Helper lemmas: snapshots -/

theorem lookupSnap_nil (k : String) : lookupSnap [] k = none := rfl

theorem lookupSnap_cons (kv : String × ℚ) (s : Snap) (k : String) :
    lookupSnap (kv :: s) k = if kv.1 = k then some kv.2 else lookupSnap s k := by
  by_cases h : kv.1 = k <;> simp [lookupSnap, List.find?_cons, h]

theorem lookupSnap_setPrice_self (s : Snap) (k : String) (p : ℚ) :
    lookupSnap (setPrice s k p) k = (lookupSnap s k).map (fun _ => p) := by
  induction s with
  | nil => rfl
  | cons kv t ih =>
    by_cases h : kv.1 = k
    · simp [setPrice, h, lookupSnap_cons]
    · simp [setPrice, h, lookupSnap_cons, ih]

theorem lookupSnap_setPrice_ne (s : Snap) (k k' : String) (p : ℚ) (h : k' ≠ k) :
    lookupSnap (setPrice s k p) k' = lookupSnap s k' := by
  induction s with
  | nil => rfl
  | cons kv t ih =>
    by_cases hk : kv.1 = k
    · have hkk : ¬(k = k') := fun he => h he.symm
      have hne : ¬(kv.1 = k') := by rw [hk]; exact hkk
      simp [setPrice, hk, lookupSnap_cons, hne, hkk, ih]
    · simp only [setPrice, if_neg hk]
      rw [lookupSnap_cons, lookupSnap_cons, ih]

theorem lookupSnap_append (s t : Snap) (k : String) :
    lookupSnap (s ++ t) k = (lookupSnap s k).or (lookupSnap t k) := by
  simp only [lookupSnap, List.find?_append]
  cases List.find? (fun kv => kv.1 = k) s <;> simp

theorem lookupSnap_insert_self (s : Snap) (k : String) (p : ℚ)
    (h : lookupSnap s k = none) :
    lookupSnap (insertSnap s k p) k = some p := by
  simp [insertSnap, lookupSnap_append, h, lookupSnap_cons, lookupSnap_nil]

theorem lookupSnap_insert_ne (s : Snap) (k k' : String) (p : ℚ) (h : k' ≠ k) :
    lookupSnap (insertSnap s k p) k' = lookupSnap s k' := by
  have hkk : ¬(k = k') := fun he => h he.symm
  have h1 : lookupSnap [(k, p)] k' = none := by
    simp [lookupSnap_cons, lookupSnap_nil, hkk]
  rw [insertSnap, lookupSnap_append, h1, Option.or_none]

theorem setPrice_keys (s : Snap) (k : String) (p : ℚ) :
    (setPrice s k p).map Prod.fst = s.map Prod.fst := by
  induction s with
  | nil => rfl
  | cons kv t ih =>
    by_cases h : kv.1 = k <;> simp [setPrice, h, ih]

theorem insertSnap_keys (s : Snap) (k : String) (p : ℚ) :
    (insertSnap s k p).map Prod.fst = s.map Prod.fst ++ [k] := by
  simp [insertSnap]

theorem lookupSnap_eq_none_iff (s : Snap) (k : String) :
    lookupSnap s k = none ↔ k ∉ s.map Prod.fst := by
  induction s with
  | nil => simp [lookupSnap_nil]
  | cons kv t ih =>
    rw [lookupSnap_cons]
    by_cases h : kv.1 = k
    · simp [h]
    · have h' : ¬(k = kv.1) := fun he => h he.symm
      simp [h, h', ih]

/-! ## Helper lemmas: concrete evaluation -/

/-- Concrete float scan: `"2.50"`. -/
theorem jsParseFloat_example : jsParseFloat "2.50" = some (5/2) := by
  have h : jsParseParts "2.50" = some ⟨false, 2, 50, 2, 0⟩ := by decide
  simp [jsParseFloat, h, partsVal]
  norm_num

/-- Concrete float scan: `"0"` parses to `0`. -/
theorem jsParseFloat_zero : jsParseFloat "0" = some 0 := by
  have h : jsParseParts "0" = some ⟨false, 0, 0, 0, 0⟩ := by decide
  simp [jsParseFloat, h, partsVal]

/-- Concrete float scan: the string `"undefined"` is `NaN`. -/
theorem jsParseFloat_undef : jsParseFloat "undefined" = none := by
  have h : jsParseParts "undefined" = none := by decide
  simp [jsParseFloat, h]

/-- The reference sellable row of the spec's end-to-end scenario
(number `4/102`, market price `2.50`). -/
def rowA : Row := ⟨"42", "", "4/102", "2.50"⟩

theorem rowA_sellable : sellable rowA = true := by
  have h2 : jsParseFloat rowA.marketPrice = some (5/2) := jsParseFloat_example
  simp only [sellable, h2, Bool.and_eq_true, decide_eq_true_eq]
  refine ⟨by decide, by decide, by norm_num⟩

theorem rowA_market : marketOf rowA = 5/2 := by
  simp [marketOf, rowA, jsParseFloat_example]

/-- The empty string scans to `NaN`. -/
theorem jsParseFloat_empty : jsParseFloat "" = none := by
  have h : jsParseParts "" = none := by decide
  simp [jsParseFloat, h]

/-- A non-sellable reference row (no `/` in its number field). -/
def rowB : Row := ⟨"7", "", "12", "2.50"⟩

/-! ## C7: the sellable filter -/

/-- C7: a feed row is kept iff its trimmed `extNumber` is non-empty and
contains `/` and its `marketPrice` parses to a strictly positive
decimal; a discarded row, inserted anywhere into a group's feed, leaves
the group's counter deltas (SSH backend) and SKU stream (REST backend)
unchanged — it produces no decision and no counter increment. -/
theorem C7_sellable_filter (r : Row) :
    (sellable r = true ↔
      (jsTrim r.extNumber ≠ "" ∧ '/' ∈ (jsTrim r.extNumber).data ∧
        ∃ q, jsParseFloat r.marketPrice = some q ∧ 0 < q)) ∧
    (sellable r = false → ∀ po (mem : Snap) (trm : ℚ) (abbr : String)
        (l₁ l₂ : List Row) (okB : ℕ) (f : ℕ → COut),
      sshGroupDeltas po mem trm abbr (some (l₁ ++ r :: l₂)) okB f =
        sshGroupDeltas po mem trm abbr (some (l₁ ++ l₂)) okB f) ∧
    (sellable r = false → ∀ (a : String) (l₁ l₂ : List Row),
      groupSkus ⟨a, l₁ ++ r :: l₂⟩ = groupSkus ⟨a, l₁ ++ l₂⟩) := by
  refine ⟨⟨?_, ?_⟩, ?_, ?_⟩
  · intro h
    rw [sellable, Bool.and_eq_true, Bool.and_eq_true] at h
    obtain ⟨h1, h2, h3⟩ := h
    have hmem : '/' ∈ (jsTrim r.extNumber).data := List.elem_iff.mp h1
    refine ⟨?_, hmem, ?_⟩
    · intro he
      rw [he] at hmem
      simp at hmem
    · cases hq : jsParseFloat r.marketPrice with
      | none => rw [hq] at h3; cases h3
      | some q =>
        rw [hq] at h3
        exact ⟨q, rfl, by simpa using h3⟩
  · rintro ⟨h0, hmem, q, hq, hpos⟩
    rw [sellable, Bool.and_eq_true, Bool.and_eq_true]
    refine ⟨List.elem_iff.mpr hmem, ?_, ?_⟩
    · have hne : r.marketPrice ≠ "" := by
        intro he
        rw [he, jsParseFloat_empty] at hq
        cases hq
      simpa using hne
    · rw [hq]
      simpa using hpos
  · intro hns po mem trm abbr l₁ l₂ okB f
    have hf : (l₁ ++ r :: l₂).filter sellable = (l₁ ++ l₂).filter sellable := by
      simp [List.filter_append, List.filter_cons, hns]
    simp only [sshGroupDeltas, hf]
  · intro hns a l₁ l₂
    have hf : (l₁ ++ r :: l₂).filter sellable = (l₁ ++ l₂).filter sellable := by
      simp [List.filter_append, List.filter_cons, hns]
    simp only [groupSkus, hf]

/-- Witness for C7 at concrete rows: the slash-less row is discarded and
contributes nothing to a group's deltas, while the scenario row is
kept. -/
theorem C7_sellable_filter_witness :
    sellable rowB = false ∧ sellable rowA = true ∧
    sshGroupDeltas false [] 4000 "bs" (some [rowB]) 0 (fun _ => COut.ok) =
      sshGroupDeltas false [] 4000 "bs" (some []) 0 (fun _ => COut.ok) := by
  refine ⟨by decide, rowA_sellable, ?_⟩
  have h := (C7_sellable_filter rowB).2.1 (by decide) false [] 4000 "bs" [] [] 0
    (fun _ => COut.ok)
  simpa using h

/-! ## C6: price clamp -/

/-- C6: for every row, whenever the backend's rounded local price
(`Math.round(market*trm)` for the REST backend,
`Math.ceil(market*trm/100)*100` for the SSH backend) is below the
configured minimum of 200, the emitted price is exactly the minimum;
otherwise the rounded price is emitted unchanged. -/
theorem C6_price_clamp (m trm : ℚ) :
    (round (m * trm) < minPriceCOP → priceRest m trm = minPriceCOP) ∧
    (minPriceCOP ≤ round (m * trm) → priceRest m trm = round (m * trm)) ∧
    (⌈m * trm / 100⌉ * 100 < minPriceCOP → priceSSH m trm = minPriceCOP) ∧
    (minPriceCOP ≤ ⌈m * trm / 100⌉ * 100 → priceSSH m trm = ⌈m * trm / 100⌉ * 100) := by
  unfold priceRest priceSSH clampMin
  exact ⟨fun h => by rw [if_pos h], fun h => by rw [if_neg (by omega)],
    fun h => by rw [if_pos h], fun h => by rw [if_neg (by omega)]⟩

/-- Witness for C6 at concrete inputs: market `0.01` at rate `4200`
rounds to `42 < 200` and is clamped, while market `2.50` at rate `4000`
emits `10000` unchanged. -/
theorem C6_price_clamp_witness :
    priceRest (1/100) 4200 = minPriceCOP ∧ priceSSH (5/2) 4000 = 10000 := by
  have h1 : round ((1/100 : ℚ) * 4200) = 42 := by norm_num [round_eq]
  have h2 : ⌈(5/2 : ℚ) * 4000 / 100⌉ * 100 = (10000 : ℤ) := by
    norm_num [Int.ceil_eq_iff]
  refine ⟨(C6_price_clamp (1/100) 4200).1 (by rw [h1]; decide), ?_⟩
  rw [← h2]
  exact (C6_price_clamp (5/2) 4000).2.2.2 (by rw [h2]; decide)

/-! ## C8: currency rate provider -/

/-- C8 counterexample: a successful fetch whose first row carries
`valor = "0"` makes `getTRM` return `0` — not a positive decimal, not
the default `4200`, and with no warning logged — so the provider does
not "always return a positive decimal". -/
theorem C8_getTRM_counterexample :
    getTRM (.ok [⟨some "0"⟩]) = (some 0, false) ∧
    ¬(0 < (0 : ℚ)) ∧ (0 : ℚ) ≠ 4200 := by
  refine ⟨?_, by norm_num, by norm_num⟩
  simp [getTRM, jsParseFloat_zero]

/-- C8 amended: `getTRM` never raises (it is total) and performs a
single attempt; on a thrown failure — network/JSON error or an empty
result array (where `data[0].valor` throws) — it returns the default
`4200` and logs the warning; but when a first row is present it returns
`parseFloat` of its `valor` field unvalidated and without warning: a
missing `valor` yields `NaN` (modelled `none`) and a non-positive or
non-numeric `valor` is passed through as parsed. -/
theorem C8_getTRM_amended (fetch : TrmFetch) :
    (fetch = .fail → getTRM fetch = (some 4200, true)) ∧
    (fetch = .ok [] → getTRM fetch = (some 4200, true)) ∧
    (∀ r rest, fetch = .ok (r :: rest) →
      getTRM fetch = (jsParseFloat (r.valor.getD "undefined"), false)) ∧
    (∀ rest, fetch = .ok (⟨none⟩ :: rest) → (getTRM fetch).1 = none) := by
  refine ⟨fun h => by rw [h]; rfl, fun h => by rw [h]; rfl,
    fun r rest h => by rw [h]; rfl, fun rest h => ?_⟩
  rw [h]
  simp [getTRM, jsParseFloat_undef]

/-- Witness for C8 amended at concrete fetches: the failure default and
the missing-field `NaN`. -/
theorem C8_getTRM_amended_witness :
    getTRM .fail = (some 4200, true) ∧ (getTRM (.ok [⟨none⟩])).1 = none :=
  ⟨(C8_getTRM_amended .fail).1 rfl,
    (C8_getTRM_amended (.ok [⟨none⟩])).2.2.2 [] rfl⟩

/-! ## C4: the external key -/

/-- C4 counterexample: two distinct variant labels — `"Normal"` and
`"normal"` — produce the same slug, hence the same external key with
product id and abbreviation unchanged, refuting "changing any one of the
three inputs yields a different key". -/
theorem C4_sku_counterexample :
    skuOf "1" "Normal" "x" = skuOf "1" "normal" "x" ∧
    ("Normal" : String) ≠ "normal" := by
  refine ⟨?_, by decide⟩
  decide

/-- C4 amended: the external key is a pure function of (productId,
subTypeName, group abbreviation); changing the productId alone or the
abbreviation alone always changes the key, and changing the variant
label changes the key exactly when its slug (with the normal/base
fallbacks) changes. -/
theorem C4_sku_amended (p₁ p₂ s₁ s₂ a₁ a₂ : String) :
    (p₁ = p₂ → s₁ = s₂ → a₁ = a₂ → skuOf p₁ s₁ a₁ = skuOf p₂ s₂ a₂) ∧
    (s₁ = s₂ → a₁ = a₂ → p₁ ≠ p₂ → skuOf p₁ s₁ a₁ ≠ skuOf p₂ s₂ a₂) ∧
    (p₁ = p₂ → s₁ = s₂ → a₁ ≠ a₂ → skuOf p₁ s₁ a₁ ≠ skuOf p₂ s₂ a₂) ∧
    (p₁ = p₂ → a₁ = a₂ → subTypeOf s₁ ≠ subTypeOf s₂ →
      skuOf p₁ s₁ a₁ ≠ skuOf p₂ s₂ a₂) := by
  refine ⟨fun h1 h2 h3 => by rw [h1, h2, h3], ?_, ?_, ?_⟩
  · rintro rfl rfl hp he
    apply hp
    have hd := congrArg String.data he
    simp only [skuOf, String.data_append, List.append_assoc] at hd
    exact String.ext (List.append_cancel_right hd)
  · rintro rfl rfl ha he
    apply ha
    have hd := congrArg String.data he
    simp only [skuOf, String.data_append, List.append_assoc] at hd
    have h1 := List.append_cancel_left hd
    have h2 := List.append_cancel_left (List.tail_eq_of_cons_eq h1)
    have h3 := List.append_cancel_left h2
    exact String.ext (List.append_cancel_left h3)
  · rintro rfl rfl hs he
    apply hs
    have hd := congrArg String.data he
    simp only [skuOf, String.data_append, List.append_assoc] at hd
    have h1 := List.tail_eq_of_cons_eq (List.append_cancel_left hd)
    exact String.ext (List.append_cancel_right h1)

/-- Witness for C4 amended at concrete keys: identical inputs agree,
and changing the productId, the abbreviation, or the slug-changing
variant label each changes the key. -/
theorem C4_sku_amended_witness :
    skuOf "1" "Holo" "x" = skuOf "1" "Holo" "x" ∧
    skuOf "1" "Holo" "x" ≠ skuOf "2" "Holo" "x" ∧
    skuOf "1" "Holo" "x" ≠ skuOf "1" "Holo" "y" ∧
    skuOf "1" "Holo" "x" ≠ skuOf "1" "Reverse" "x" :=
  ⟨(C4_sku_amended "1" "1" "Holo" "Holo" "x" "x").1 rfl rfl rfl,
    (C4_sku_amended "1" "2" "Holo" "Holo" "x" "x").2.1 rfl rfl (by decide),
    (C4_sku_amended "1" "1" "Holo" "Holo" "x" "y").2.2.1 rfl rfl (by decide),
    (C4_sku_amended "1" "1" "Holo" "Reverse" "x" "x").2.2.2 rfl rfl (by decide)⟩

/-! ## C1: the reconciliation differ -/

/-- C1 counterexample: in the REST backend a catalog entry whose key is
found in the snapshot is always decided UPDATE — its snapshot record
`{id, status}` stores no price, so this holds in particular when the
store's price already equals the computed price — contradicting "SKIP
when the difference is at most 1 unit".  Concretely, one group with one
found SKU yields one update and zero skips. -/
theorem C1_differ_counterexample :
    restGroupStep false ["42-normal-bs"] ["42-normal-bs"] =
      ((0, 1, 0), ["42-normal-bs"]) := by
  decide

/-- C1 amended: the tolerance rule holds in the SSH backend only — a
found entry is SKIP iff `|stored - computed| ≤ 1` and UPDATE iff the
difference exceeds 1 (in particular an unchanged price is skipped) —
while the REST backend decides UPDATE for every found entry, in both
modes, with no price comparison. -/
theorem C1_differ_amended (oldP : ℚ) (newP : ℤ) (po : Bool) :
    (decideSSH (some oldP) newP po = .skip ↔ |oldP - (newP : ℚ)| ≤ 1) ∧
    (decideSSH (some oldP) newP po = .update ↔ 1 < |oldP - (newP : ℚ)|) ∧
    ((oldP = (newP : ℚ)) → decideSSH (some oldP) newP po = .skip) ∧
    (decideRest true po = .update) := by
  refine ⟨?_, ?_, fun h => ?_, rfl⟩
  · unfold decideSSH
    by_cases h : 1 < |oldP - (newP : ℚ)| <;> simp [h] <;> linarith
  · unfold decideSSH
    by_cases h : 1 < |oldP - (newP : ℚ)| <;> simp [h]
  · rw [h]
    simp [decideSSH]

/-- Witness for C1 amended: stored price 10000 against computed 10000 is
skipped by the SSH differ, and a found key is updated by the REST
differ. -/
theorem C1_differ_amended_witness :
    decideSSH (some 10000) 10000 false = .skip ∧ decideRest true false = .update :=
  ⟨(C1_differ_amended 10000 10000 false).2.2.1 (by norm_num),
    (C1_differ_amended 10000 10000 false).2.2.2⟩

/-! ## C3: single-flight guard -/

/-- C3 counterexample: a `runSync` call while `running = true` is
rejected but does mutate the run state — the warning is appended to
`logs` (which the claim asserts are "left exactly as they were"). -/
theorem C3_guard_counterexample :
    runSyncGuard "t1" { resetState with running := true } =
      some { resetState with
             running := true
             logs := [⟨"t1", "⚠️ Sync already running", "warn"⟩] } ∧
    ([⟨"t1", "⚠️ Sync already running", "warn"⟩] : List LogEntry) ≠
      ({ resetState with running := true } : SyncState).logs := by
  refine ⟨?_, by decide⟩
  decide

/-- C3 amended: a start request while `running = true` is rejected and
starts nothing; the HTTP route answers 400 touching no field, and the
`runSync` guard leaves every field unchanged except `logs`, to which
exactly the warning entry is appended (evicting the oldest past the
cap). -/
theorem C3_guard_amended (s : SyncState) (ts : String) (h : s.running = true) :
    apiSyncRoute s = (false, s) ∧
    (∀ s', runSyncGuard ts s = some s' →
      s'.running = s.running ∧ s'.phase = s.phase ∧ s'.progress = s.progress ∧
      s'.total = s.total ∧ s'.created = s.created ∧ s'.updated = s.updated ∧
      s'.skipped = s.skipped ∧ s'.errors = s.errors ∧
      s'.currentSet = s.currentSet ∧ s'.startTime = s.startTime ∧
      s'.endTime = s.endTime ∧ s'.mode = s.mode ∧ s'.method = s.method ∧
      s'.logs = (let l := s.logs ++ [⟨ts, "⚠️ Sync already running", "warn"⟩]
                 if 1000 < l.length then l.tail else l)) ∧
    runSyncGuard ts s ≠ none := by
  refine ⟨by simp [apiSyncRoute, h], fun s' hs' => ?_, by simp [runSyncGuard, h]⟩
  rw [runSyncGuard, if_pos h] at hs'
  cases hs'
  simp [pushLog]

/-- Witness for C3 amended on a concrete running state. -/
theorem C3_guard_amended_witness :
    apiSyncRoute { resetState with running := true } =
      (false, { resetState with running := true }) :=
  (C3_guard_amended { resetState with running := true } "t1" rfl).1

/-! ## C5: per-group counter budget -/

theorem countP_add_countP_le_length {α : Type} (l : List α) (p q : α → Bool)
    (h : ∀ a ∈ l, ¬(p a = true ∧ q a = true)) :
    l.countP p + l.countP q ≤ l.length := by
  induction l with
  | nil => simp
  | cons a t ih =>
    have ht := ih (fun b hb => h b (List.mem_cons_of_mem a hb))
    have ha := h a (List.mem_cons_self a t)
    by_cases hp : p a = true
    · by_cases hq : q a = true
      · exact absurd ⟨hp, hq⟩ ha
      · simp [List.countP_cons, hp, hq]
        omega
    · by_cases hq : q a = true <;> simp [List.countP_cons, hp, hq] <;> omega

theorem sshGroupDecide_partition (po : Bool) (mem : Snap) (es : List Entry) :
    (sshGroupDecide po mem es).1.length + (sshGroupDecide po mem es).2.1.length +
      (sshGroupDecide po mem es).2.2 = es.length := by
  induction es with
  | nil => rfl
  | cons e t ih =>
    simp only [sshGroupDecide, List.filter_cons, List.countP_cons, List.length_map] at ih ⊢
    cases hdec : decideSSH (lookupSnap mem e.sku) e.price po <;>
      simp only [hdec, List.length_cons, List.length_map] <;>
      simp <;> omega

theorem sshUpdCounters_le (n k : ℕ) :
    (sshUpdCounters n k).1 + (sshUpdCounters n k).2 ≤ n := by
  unfold sshUpdCounters updBatchCount
  by_cases h : (n + 499) / 500 ≤ k
  · simp [h]
  · simp only [h, if_false]
    omega

theorem sshCreateCounters_le (ns : List Entry) (f : ℕ → COut) :
    (sshCreateCounters ns f).1 + (sshCreateCounters ns f).2 ≤ ns.length := by
  unfold sshCreateCounters
  have h := countP_add_countP_le_length (List.range ns.length)
    (fun i => f i = COut.ok) (fun i => f i = COut.err) ?_
  · simpa using h
  · intro a _ hc
    have h1 := of_decide_eq_true hc.1
    have h2 := of_decide_eq_true hc.2
    rw [h1] at h2
    cases h2

/-- C5 counterexample: a group whose feed fetch fails contributes
exactly one error — yet it has no rows after the sellable filter, so the
claimed bound "total counters ≤ filtered row count" fails at that
group. -/
theorem C5_group_budget_counterexample :
    sshGroupDeltas false [] 4200 "bs" none 0 (fun _ => COut.ok) = (0, 0, 0, 1) ∧
    ¬(0 + 0 + 0 + 1 ≤ (([] : List Row).filter sellable).length) :=
  ⟨rfl, by decide⟩

/-- C5 amended: for every group whose fetch succeeds, the total added to
the created, updated, skipped and errors counters by that group is at
most the number of its rows surviving the sellable filter — under any
combination of update-batch and create failures; a group whose fetch
fails contributes exactly `(0, 0, 0, 1)`, one error counted against no
filtered rows. -/
theorem C5_group_budget_amended (po : Bool) (mem : Snap) (trm : ℚ) (abbr : String)
    (rows : List Row) (okB : ℕ) (f : ℕ → COut) :
    ((sshGroupDeltas po mem trm abbr (some rows) okB f).1 +
      (sshGroupDeltas po mem trm abbr (some rows) okB f).2.1 +
      (sshGroupDeltas po mem trm abbr (some rows) okB f).2.2.1 +
      (sshGroupDeltas po mem trm abbr (some rows) okB f).2.2.2 ≤
        (rows.filter sellable).length) ∧
    sshGroupDeltas po mem trm abbr none okB f = (0, 0, 0, 1) := by
  constructor
  · have hpart := sshGroupDecide_partition po mem
      ((rows.filter sellable).map (entryOf trm abbr))
    have hu := sshUpdCounters_le
      (sshGroupDecide po mem ((rows.filter sellable).map (entryOf trm abbr))).1.length okB
    have hc := sshCreateCounters_le
      (sshGroupDecide po mem ((rows.filter sellable).map (entryOf trm abbr))).2.1 f
    simp only [sshGroupDeltas, List.length_map] at hpart ⊢
    omega
  · rfl

/-! ## C9: failure transition -/

/-- A concrete mid-run state with partial counts accumulated. -/
def midRunState : SyncState :=
  { startedState "full" "ssh" "t0" with
    phase := "syncing"
    created := 3
    updated := 2
    skipped := 1 }

/-- C9 counterexample: the REST backend's catch handler moves the state
to `error` with `running = false` but never records `endTime` — it stays
`null` — contradicting "endTime recorded" for every run. -/
theorem C9_error_counterexample :
    (restOnError "t1" "❌ Sync failed: boom" midRunState).endTime = none ∧
    (restOnError "t1" "❌ Sync failed: boom" midRunState).phase = "error" ∧
    (restOnError "t1" "❌ Sync failed: boom" midRunState).running = false ∧
    (restOnError "t1" "❌ Sync failed: boom" midRunState).created = 3 := by
  decide

/-- C9 amended: on an uncaught failure both backends transition to
`error`, clear `running`, and preserve the counters accumulated so far;
the SSH server records `endTime`, while the REST server leaves `endTime`
unchanged (still `null` when the failure precedes completion). -/
theorem C9_error_amended (s : SyncState) (ts msg tEnd : String) :
    (restOnError ts msg s).phase = "error" ∧
    (restOnError ts msg s).running = false ∧
    (restOnError ts msg s).created = s.created ∧
    (restOnError ts msg s).updated = s.updated ∧
    (restOnError ts msg s).skipped = s.skipped ∧
    (restOnError ts msg s).errors = s.errors ∧
    (restOnError ts msg s).endTime = s.endTime ∧
    (sshOnError ts msg tEnd s).phase = "error" ∧
    (sshOnError ts msg tEnd s).running = false ∧
    (sshOnError ts msg tEnd s).created = s.created ∧
    (sshOnError ts msg tEnd s).updated = s.updated ∧
    (sshOnError ts msg tEnd s).skipped = s.skipped ∧
    (sshOnError ts msg tEnd s).errors = s.errors ∧
    (sshOnError ts msg tEnd s).endTime = some tEnd := by
  simp [restOnError, sshOnError, pushLog]

/-! ## C2: idempotence of the SSH engine -/

theorem applyUpdates_cons (db : Snap) (u : String × ℤ) (us : List (String × ℤ)) :
    applyUpdates db (u :: us) = applyUpdates (setPrice db u.1 (u.2 : ℚ)) us := rfl

theorem applyUpdates_keys (db : Snap) (us : List (String × ℤ)) :
    (applyUpdates db us).map Prod.fst = db.map Prod.fst := by
  induction us generalizing db with
  | nil => rfl
  | cons u t ih => rw [applyUpdates_cons, ih, setPrice_keys]

theorem lookup_applyUpdates_of_not_mem (db : Snap) (us : List (String × ℤ))
    (k : String) (h : k ∉ us.map Prod.fst) :
    lookupSnap (applyUpdates db us) k = lookupSnap db k := by
  induction us generalizing db with
  | nil => rfl
  | cons u t ih =>
    have hk : k ≠ u.1 := fun he => h (by rw [he]; exact List.mem_cons_self _ _)
    have ht : k ∉ t.map Prod.fst := fun hm => h (List.mem_cons_of_mem _ hm)
    rw [applyUpdates_cons, ih _ ht, lookupSnap_setPrice_ne _ _ _ _ hk]

theorem lookup_applyUpdates_of_mem (db : Snap) (us : List (String × ℤ))
    (k : String) (p : ℤ) (hmem : (k, p) ∈ us) (hnd : (us.map Prod.fst).Nodup)
    (hk : k ∈ db.map Prod.fst) :
    lookupSnap (applyUpdates db us) k = some (p : ℚ) := by
  induction us generalizing db with
  | nil => cases hmem
  | cons u t ih =>
    rw [List.map_cons, List.nodup_cons] at hnd
    rcases List.mem_cons.mp hmem with h | h
    · rw [← h] at hnd ⊢
      have ht : k ∉ t.map Prod.fst := hnd.1
      rw [applyUpdates_cons, lookup_applyUpdates_of_not_mem _ _ _ ht,
        lookupSnap_setPrice_self]
      cases hq : lookupSnap db k with
      | none => exact absurd ((lookupSnap_eq_none_iff db k).mp hq) (by simpa using hk)
      | some q => rfl
    · have hk1 : u.1 ≠ k := by
        intro he
        exact hnd.1 (by rw [he]; exact List.mem_map_of_mem Prod.fst h)
      rw [applyUpdates_cons]
      exact ih (setPrice db u.1 (u.2 : ℚ)) h hnd.2 (by rw [setPrice_keys]; exact hk)

theorem applyCreates_cons (db : Snap) (e : Entry) (ns : List Entry) :
    applyCreates db (e :: ns) = applyCreates (insertSnap db e.sku (e.price : ℚ)) ns := rfl

theorem applyCreates_keys (db : Snap) (ns : List Entry) :
    (applyCreates db ns).map Prod.fst = db.map Prod.fst ++ ns.map Entry.sku := by
  induction ns generalizing db with
  | nil => simp [applyCreates]
  | cons e t ih =>
    rw [applyCreates_cons, ih, insertSnap_keys]
    simp

theorem lookup_applyCreates_of_not_mem (db : Snap) (ns : List Entry)
    (k : String) (h : k ∉ ns.map Entry.sku) :
    lookupSnap (applyCreates db ns) k = lookupSnap db k := by
  induction ns generalizing db with
  | nil => rfl
  | cons e t ih =>
    have hk : k ≠ e.sku := fun he => h (by rw [he]; exact List.mem_cons_self _ _)
    have ht : k ∉ t.map Entry.sku := fun hm => h (List.mem_cons_of_mem _ hm)
    rw [applyCreates_cons, ih _ ht, lookupSnap_insert_ne _ _ _ _ hk]

theorem lookup_applyCreates_of_mem (db : Snap) (ns : List Entry) (e : Entry)
    (hmem : e ∈ ns) (hnd : (ns.map Entry.sku).Nodup)
    (h0 : lookupSnap db e.sku = none) :
    lookupSnap (applyCreates db ns) e.sku = some (e.price : ℚ) := by
  induction ns generalizing db with
  | nil => cases hmem
  | cons e' t ih =>
    rw [List.map_cons, List.nodup_cons] at hnd
    rcases List.mem_cons.mp hmem with h | h
    · rw [← h] at hnd ⊢
      rw [applyCreates_cons,
        lookup_applyCreates_of_not_mem _ _ _ hnd.1,
        lookupSnap_insert_self _ _ _ h0]
    · have hk : e.sku ≠ e'.sku := by
        intro he
        exact hnd.1 (by rw [← he]; exact List.mem_map_of_mem Entry.sku h)
      rw [applyCreates_cons]
      exact ih (insertSnap db e'.sku (e'.price : ℚ)) h hnd.2
        (by rw [lookupSnap_insert_ne _ _ _ _ hk]; exact h0)

/-! ### Behaviour of the differ outcomes -/

theorem decideSSH_self_skip (p : ℤ) (po : Bool) :
    decideSSH (some (p : ℚ)) p po = .skip := by
  simp [decideSSH]

theorem decideSSH_update_found (o : Option ℚ) (p : ℤ) (po : Bool)
    (h : decideSSH o p po = .update) : ∃ old, o = some old := by
  cases o with
  | none => cases po <;> simp [decideSSH] at h
  | some q => exact ⟨q, rfl⟩

theorem decideSSH_create_not_found (o : Option ℚ) (p : ℤ) (po : Bool)
    (h : decideSSH o p po = .create) : o = none := by
  cases o with
  | none => rfl
  | some q =>
    by_cases h1 : 1 < |q - (p : ℚ)| <;> simp [decideSSH, h1] at h

/-! ### Membership in the decision lists -/

theorem groupDecide_updates_keys (po : Bool) (mem : Snap) (es : List Entry) :
    (sshGroupDecide po mem es).1.map Prod.fst =
      (es.filter (fun e => decideSSH (lookupSnap mem e.sku) e.price po = .update)).map
        Entry.sku := by
  simp [sshGroupDecide, List.map_map]

theorem groupDecide_updates_keys_sublist (po : Bool) (mem : Snap) (es : List Entry) :
    List.Sublist ((sshGroupDecide po mem es).1.map Prod.fst) (es.map Entry.sku) := by
  rw [groupDecide_updates_keys]
  exact (List.filter_sublist es).map Entry.sku

theorem groupDecide_creates_skus_sublist (po : Bool) (mem : Snap) (es : List Entry) :
    List.Sublist ((sshGroupDecide po mem es).2.1.map Entry.sku) (es.map Entry.sku) :=
  (List.filter_sublist es).map Entry.sku

theorem pair_mem_groupDecide_updates (po : Bool) (mem : Snap) (es : List Entry)
    (e : Entry) (he : e ∈ es)
    (hdec : decideSSH (lookupSnap mem e.sku) e.price po = .update) :
    (e.sku, e.price) ∈ (sshGroupDecide po mem es).1 :=
  List.mem_map_of_mem _ (List.mem_filter.mpr ⟨he, by simp [hdec]⟩)

theorem mem_groupDecide_creates (po : Bool) (mem : Snap) (es : List Entry)
    (e : Entry) :
    e ∈ (sshGroupDecide po mem es).2.1 ↔
      e ∈ es ∧ decideSSH (lookupSnap mem e.sku) e.price po = .create := by
  simp [sshGroupDecide, List.mem_filter]

theorem sku_mem_groupDecide_updates (po : Bool) (mem : Snap) (es : List Entry)
    (k : String) :
    k ∈ (sshGroupDecide po mem es).1.map Prod.fst ↔
      ∃ e ∈ es, e.sku = k ∧
        decideSSH (lookupSnap mem e.sku) e.price po = .update := by
  rw [groupDecide_updates_keys]
  simp [List.mem_map, List.mem_filter]
  constructor
  · rintro ⟨e, ⟨he, hd⟩, hk⟩
    exact ⟨e, he, hk, hd⟩
  · rintro ⟨e, he, hk, hd⟩
    exact ⟨e, ⟨he, hd⟩, hk⟩

theorem sku_mem_groupDecide_creates (po : Bool) (mem : Snap) (es : List Entry)
    (k : String) :
    k ∈ (sshGroupDecide po mem es).2.1.map Entry.sku ↔
      ∃ e ∈ es, e.sku = k ∧
        decideSSH (lookupSnap mem e.sku) e.price po = .create := by
  simp [sshGroupDecide, List.mem_map, List.mem_filter]
  constructor
  · rintro ⟨e, ⟨he, hd⟩, hk⟩
    exact ⟨e, he, hk, hd⟩
  · rintro ⟨e, he, hk, hd⟩
    exact ⟨e, ⟨he, hd⟩, hk⟩

/-! ### The group step -/

theorem sshGroupStep_db (po : Bool) (st : Snap × Snap) (es : List Entry) :
    (sshGroupStep po st es).2.1 =
      applyCreates (applyUpdates st.1 (sshGroupDecide po st.2 es).1)
        (sshGroupDecide po st.2 es).2.1 := rfl

theorem sshGroupStep_mem (po : Bool) (st : Snap × Snap) (es : List Entry) :
    (sshGroupStep po st es).2.2 =
      applyCreates st.2 (sshGroupDecide po st.2 es).2.1 := rfl

theorem sshGroupStep_frame (po : Bool) (st : Snap × Snap) (es : List Entry)
    (k : String) (hk : k ∉ es.map Entry.sku) :
    lookupSnap (sshGroupStep po st es).2.1 k = lookupSnap st.1 k ∧
    lookupSnap (sshGroupStep po st es).2.2 k = lookupSnap st.2 k := by
  have hu : k ∉ (sshGroupDecide po st.2 es).1.map Prod.fst :=
    fun hm => hk ((groupDecide_updates_keys_sublist po st.2 es).subset hm)
  have hc : k ∉ (sshGroupDecide po st.2 es).2.1.map Entry.sku :=
    fun hm => hk ((groupDecide_creates_skus_sublist po st.2 es).subset hm)
  constructor
  · rw [sshGroupStep_db, lookup_applyCreates_of_not_mem _ _ _ hc,
      lookup_applyUpdates_of_not_mem _ _ _ hu]
  · rw [sshGroupStep_mem, lookup_applyCreates_of_not_mem _ _ _ hc]

theorem sshGroupStep_keys (po : Bool) (st : Snap × Snap) (es : List Entry)
    (h : st.1.map Prod.fst = st.2.map Prod.fst) :
    (sshGroupStep po st es).2.1.map Prod.fst =
      (sshGroupStep po st es).2.2.map Prod.fst := by
  rw [sshGroupStep_db, sshGroupStep_mem, applyCreates_keys, applyCreates_keys,
    applyUpdates_keys, h]

theorem sshGroupStep_establishes (po : Bool) (st : Snap × Snap) (es : List Entry)
    (hkeys : st.1.map Prod.fst = st.2.map Prod.fst)
    (hdup : (es.map Entry.sku).Nodup)
    (hagree : ∀ e ∈ es, lookupSnap st.1 e.sku = lookupSnap st.2 e.sku) :
    ∀ e ∈ es,
      decideSSH (lookupSnap (sshGroupStep po st es).2.1 e.sku) e.price po = .skip := by
  intro e he
  rw [sshGroupStep_db]
  cases hdec : decideSSH (lookupSnap st.2 e.sku) e.price po with
  | update =>
    obtain ⟨old, hold⟩ := decideSSH_update_found _ _ _ hdec
    have hkmem : e.sku ∈ st.1.map Prod.fst := by
      rw [hkeys]
      by_contra hnm
      rw [(lookupSnap_eq_none_iff st.2 e.sku).mpr hnm] at hold
      cases hold
    have hpair := pair_mem_groupDecide_updates po st.2 es e he hdec
    have hndu : ((sshGroupDecide po st.2 es).1.map Prod.fst).Nodup :=
      hdup.sublist (groupDecide_updates_keys_sublist po st.2 es)
    have hupd := lookup_applyUpdates_of_mem st.1 _ e.sku e.price hpair hndu hkmem
    have hnc : e.sku ∉ (sshGroupDecide po st.2 es).2.1.map Entry.sku := by
      intro hm
      obtain ⟨e₂, he₂, hk₂, hd₂⟩ := (sku_mem_groupDecide_creates po st.2 es e.sku).mp hm
      rw [List.inj_on_of_nodup_map hdup he₂ he hk₂, hdec] at hd₂
      cases hd₂
    rw [lookup_applyCreates_of_not_mem _ _ _ hnc, hupd]
    exact decideSSH_self_skip e.price po
  | create =>
    have h2 : lookupSnap st.2 e.sku = none := decideSSH_create_not_found _ _ _ hdec
    have h1 : lookupSnap st.1 e.sku = none := by rw [hagree e he, h2]
    have hmemn : e ∈ (sshGroupDecide po st.2 es).2.1 :=
      (mem_groupDecide_creates po st.2 es e).mpr ⟨he, hdec⟩
    have hnu : e.sku ∉ (sshGroupDecide po st.2 es).1.map Prod.fst := by
      intro hm
      obtain ⟨e₂, he₂, hk₂, hd₂⟩ := (sku_mem_groupDecide_updates po st.2 es e.sku).mp hm
      rw [List.inj_on_of_nodup_map hdup he₂ he hk₂, hdec] at hd₂
      cases hd₂
    have hndc : ((sshGroupDecide po st.2 es).2.1.map Entry.sku).Nodup :=
      hdup.sublist (groupDecide_creates_skus_sublist po st.2 es)
    have h1' : lookupSnap (applyUpdates st.1 (sshGroupDecide po st.2 es).1) e.sku
        = none := by
      rw [lookup_applyUpdates_of_not_mem _ _ _ hnu]
      exact h1
    rw [lookup_applyCreates_of_mem _ _ e hmemn hndc h1']
    exact decideSSH_self_skip e.price po
  | skip =>
    have hnu : e.sku ∉ (sshGroupDecide po st.2 es).1.map Prod.fst := by
      intro hm
      obtain ⟨e₂, he₂, hk₂, hd₂⟩ := (sku_mem_groupDecide_updates po st.2 es e.sku).mp hm
      rw [List.inj_on_of_nodup_map hdup he₂ he hk₂, hdec] at hd₂
      cases hd₂
    have hnc : e.sku ∉ (sshGroupDecide po st.2 es).2.1.map Entry.sku := by
      intro hm
      obtain ⟨e₂, he₂, hk₂, hd₂⟩ := (sku_mem_groupDecide_creates po st.2 es e.sku).mp hm
      rw [List.inj_on_of_nodup_map hdup he₂ he hk₂, hdec] at hd₂
      cases hd₂
    rw [lookup_applyCreates_of_not_mem _ _ _ hnc,
      lookup_applyUpdates_of_not_mem _ _ _ hnu, hagree e he, hdec]

/-! ### The engine over the whole feed -/

/-- The normalized catalog entries of the whole feed, in processing
order. -/
def allEntries (trm : ℚ) (feed : List GroupFeed) : List Entry :=
  ((feed.map (groupEntries trm)).flatten)

theorem allEntries_cons (trm : ℚ) (g : GroupFeed) (gs : List GroupFeed) :
    allEntries trm (g :: gs) = groupEntries trm g ++ allEntries trm gs := by
  simp [allEntries]

theorem sshEngineFrom_cons (po : Bool) (trm : ℚ) (st : Snap × Snap)
    (g : GroupFeed) (gs : List GroupFeed) :
    (sshEngineFrom po trm st (g :: gs)).2 =
      (sshEngineFrom po trm (sshGroupStep po st (groupEntries trm g)).2 gs).2 := rfl

theorem sshEngineFrom_frame (po : Bool) (trm : ℚ) (feed : List GroupFeed)
    (k : String) :
    ∀ st : Snap × Snap, k ∉ (allEntries trm feed).map Entry.sku →
      lookupSnap (sshEngineFrom po trm st feed).2.1 k = lookupSnap st.1 k ∧
      lookupSnap (sshEngineFrom po trm st feed).2.2 k = lookupSnap st.2 k := by
  induction feed with
  | nil => exact fun st _ => ⟨rfl, rfl⟩
  | cons g gs ih =>
    intro st hk
    rw [allEntries_cons, List.map_append] at hk
    have hk1 : k ∉ (groupEntries trm g).map Entry.sku :=
      fun hm => hk (List.mem_append_left _ hm)
    have hk2 : k ∉ (allEntries trm gs).map Entry.sku :=
      fun hm => hk (List.mem_append_right _ hm)
    have hstep := sshGroupStep_frame po st (groupEntries trm g) k hk1
    have hrec := ih (sshGroupStep po st (groupEntries trm g)).2 hk2
    rw [sshEngineFrom_cons]
    exact ⟨hrec.1.trans hstep.1, hrec.2.trans hstep.2⟩

theorem sshEngineFrom_keys (po : Bool) (trm : ℚ) (feed : List GroupFeed) :
    ∀ st : Snap × Snap, st.1.map Prod.fst = st.2.map Prod.fst →
      (sshEngineFrom po trm st feed).2.1.map Prod.fst =
        (sshEngineFrom po trm st feed).2.2.map Prod.fst := by
  induction feed with
  | nil => exact fun st h => h
  | cons g gs ih =>
    intro st h
    rw [sshEngineFrom_cons]
    exact ih _ (sshGroupStep_keys po st (groupEntries trm g) h)

theorem sshEngineFrom_establishes (po : Bool) (trm : ℚ) (feed : List GroupFeed) :
    ∀ st : Snap × Snap, st.1.map Prod.fst = st.2.map Prod.fst →
      ((allEntries trm feed).map Entry.sku).Nodup →
      (∀ e ∈ allEntries trm feed, lookupSnap st.1 e.sku = lookupSnap st.2 e.sku) →
      ∀ e ∈ allEntries trm feed,
        decideSSH (lookupSnap (sshEngineFrom po trm st feed).2.1 e.sku) e.price po
          = .skip := by
  induction feed with
  | nil =>
    intro st _ _ _ e he
    simp [allEntries] at he
  | cons g gs ih =>
    intro st hkeys hdup hagree e he
    rw [allEntries_cons, List.map_append] at hdup
    have hd1 : ((groupEntries trm g).map Entry.sku).Nodup := hdup.of_append_left
    have hd2 : ((allEntries trm gs).map Entry.sku).Nodup := hdup.of_append_right
    have hdisj := (List.nodup_append.mp hdup).2.2
    rw [sshEngineFrom_cons]
    rw [allEntries_cons] at he
    rcases List.mem_append.mp he with heg | hegs
    · have hstep := sshGroupStep_establishes po st (groupEntries trm g) hkeys hd1
        (fun e' he' => hagree e' (by rw [allEntries_cons]; exact List.mem_append_left _ he'))
        e heg
      have hnm : e.sku ∉ (allEntries trm gs).map Entry.sku :=
        fun hm => hdisj (List.mem_map_of_mem Entry.sku heg) hm
      have hframe := sshEngineFrom_frame po trm gs e.sku
        (sshGroupStep po st (groupEntries trm g)).2 hnm
      rw [hframe.1]
      exact hstep
    · have hkeys' := sshGroupStep_keys po st (groupEntries trm g) hkeys
      have hagree' : ∀ e' ∈ allEntries trm gs,
          lookupSnap (sshGroupStep po st (groupEntries trm g)).2.1 e'.sku =
            lookupSnap (sshGroupStep po st (groupEntries trm g)).2.2 e'.sku := by
        intro e' he'
        have hnm : e'.sku ∉ (groupEntries trm g).map Entry.sku :=
          fun hm => hdisj hm (List.mem_map_of_mem Entry.sku he')
        have hf := sshGroupStep_frame po st (groupEntries trm g) e'.sku hnm
        rw [hf.1, hf.2]
        exact hagree e' (by rw [allEntries_cons]; exact List.mem_append_right _ he')
      exact ih _ hkeys' hd2 hagree' e hegs

/-! ### The all-skip second run -/

theorem sshGroupDecide_all_skip (po : Bool) (mem : Snap) (es : List Entry)
    (h : ∀ e ∈ es, decideSSH (lookupSnap mem e.sku) e.price po = .skip) :
    sshGroupDecide po mem es = ([], [], es.length) := by
  rw [sshGroupDecide]
  refine congrArg₂ _ ?_ (congrArg₂ _ ?_ ?_)
  · rw [List.filter_eq_nil_iff.mpr, List.map_nil]
    intro e he
    simp [h e he]
  · rw [List.filter_eq_nil_iff.mpr]
    intro e he
    simp [h e he]
  · rw [List.countP_eq_length.mpr]
    intro e he
    simp [h e he]

theorem sshGroupStep_all_skip (po : Bool) (st : Snap × Snap) (es : List Entry)
    (h : ∀ e ∈ es, decideSSH (lookupSnap st.2 e.sku) e.price po = .skip) :
    sshGroupStep po st es = ((0, 0, es.length), st) := by
  rw [sshGroupStep]
  rw [sshGroupDecide_all_skip po st.2 es h]
  rfl

theorem sshEngineFrom_all_skip (po : Bool) (trm : ℚ) (feed : List GroupFeed) :
    ∀ st : Snap × Snap,
      (∀ e ∈ allEntries trm feed,
        decideSSH (lookupSnap st.2 e.sku) e.price po = .skip) →
      sshEngineFrom po trm st feed = ((0, 0, (allEntries trm feed).length), st) := by
  induction feed with
  | nil =>
    intro st _
    simp [sshEngineFrom, allEntries]
  | cons g gs ih =>
    intro st h
    have hg : ∀ e ∈ groupEntries trm g,
        decideSSH (lookupSnap st.2 e.sku) e.price po = .skip :=
      fun e he => h e (by rw [allEntries_cons]; exact List.mem_append_left _ he)
    have hgs : ∀ e ∈ allEntries trm gs,
        decideSSH (lookupSnap st.2 e.sku) e.price po = .skip :=
      fun e he => h e (by rw [allEntries_cons]; exact List.mem_append_right _ he)
    have hstep := sshGroupStep_all_skip po st (groupEntries trm g) hg
    rw [sshEngineFrom, hstep, ih st hgs, allEntries_cons, List.length_append]
    simp

/-! ### C2 itself -/

/-- C2 counterexample: in the REST backend a second run against the
snapshot left by the first is not idempotent — the single entry created
by run one is found by run two and re-issued as an update, so the second
run reports one update, not zero. -/
theorem C2_idempotence_counterexample :
    (restEngine false (restEngine false [] [⟨"bs", [rowA]⟩]).2 [⟨"bs", [rowA]⟩]).1
      = (0, 1, 0) := by
  have hsku : groupSkus ⟨"bs", [rowA]⟩ = ["42-normal-bs"] := by
    rw [groupSkus]
    rw [show ([rowA].filter sellable) = [rowA] from by
      rw [List.filter_cons, if_pos rowA_sellable, List.filter_nil]]
    rw [List.map_cons, List.map_nil]
    rw [show skuOf rowA.productId rowA.subTypeName "bs" = "42-normal-bs" from by decide]
  have h1 : restEngine false [] [⟨"bs", [rowA]⟩] = ((1, 0, 0), ["42-normal-bs"]) := by
    rw [restEngine, List.foldl_cons, List.foldl_nil, hsku]
    decide
  rw [h1]
  rw [restEngine, List.foldl_cons, List.foldl_nil, hsku]
  decide

/-- C2 amended: the SSH engine is idempotent — with external keys unique
across the run (the spec's CatalogEntry invariant), a second run against
an unchanged feed, an unchanged rate, and the database state left by the
first run decides SKIP for every catalog entry, performing zero creates
and zero updates and leaving the database unchanged; the REST engine is
not — its second run re-issues an update for every found entry. -/
theorem C2_idempotence_amended (po : Bool) (trm : ℚ) (db : Snap)
    (feed : List GroupFeed)
    (hdup : ((allEntries trm feed).map Entry.sku).Nodup) :
    (sshEngine po trm (sshEngine po trm db feed).2 feed).1 =
      (0, 0, (allEntries trm feed).length) ∧
    (sshEngine po trm (sshEngine po trm db feed).2 feed).2 =
      (sshEngine po trm db feed).2 := by
  have hest := sshEngineFrom_establishes po trm feed (db, db) rfl hdup
    (fun e _ => rfl)
  have hall : ∀ e ∈ allEntries trm feed,
      decideSSH
        (lookupSnap ((sshEngine po trm db feed).2, (sshEngine po trm db feed).2).2
          e.sku) e.price po = .skip := by
    intro e he
    exact hest e he
  have h2 := sshEngineFrom_all_skip po trm feed
    ((sshEngine po trm db feed).2, (sshEngine po trm db feed).2) hall
  constructor
  · show (sshEngineFrom po trm _ feed).1 = _
    rw [h2]
  · show (sshEngineFrom po trm _ feed).2.1 = _
    rw [h2]

/-- Witness for C2 amended: a one-group, one-row feed (the spec's
scenario row) run twice from an empty store — the second run reports
zero creates, zero updates, one skip. -/
theorem C2_idempotence_amended_witness :
    (sshEngine false 4000 (sshEngine false 4000 [] [⟨"bs", [rowA]⟩]).2
        [⟨"bs", [rowA]⟩]).1 = (0, 0, 1) := by
  have hg : allEntries 4000 [⟨"bs", [rowA]⟩] = [entryOf 4000 "bs" rowA] := by
    rw [allEntries, List.map_cons, List.map_nil, List.flatten,
      groupEntries]
    rw [show ([rowA].filter sellable) = [rowA] from by
      rw [List.filter_cons, if_pos rowA_sellable, List.filter_nil]]
    simp
  have hdup : ((allEntries 4000 [⟨"bs", [rowA]⟩]).map Entry.sku).Nodup := by
    rw [hg]
    simp
  have h := (C2_idempotence_amended false 4000 [] [⟨"bs", [rowA]⟩] hdup).1
  rw [hg] at h
  simpa using h

/-! ## C10: frozen skipped/error counters during an SSH run -/

theorem applyUpd_skipped_errors (s : SyncState) (u : Upd) :
    (applyUpd s u).skipped = s.skipped ∧ (applyUpd s u).errors = s.errors := by
  cases u <;> simp [applyUpd]

theorem broadcastStates_skipped_errors (us : List Upd) (s0 : SyncState) :
    ∀ s ∈ broadcastStates s0 us, s.skipped = s0.skipped ∧ s.errors = s0.errors := by
  induction us generalizing s0 with
  | nil => intro s hs; cases hs
  | cons u t ih =>
    intro s hs
    rcases List.mem_cons.mp hs with h | h
    · rw [h]
      exact applyUpd_skipped_errors s0 u
    · have h1 := ih (applyUpd s0 u) s h
      have h2 := applyUpd_skipped_errors s0 u
      exact ⟨h1.1.trans h2.1, h1.2.trans h2.2⟩

/-- C10: during an SSH-backend run every state broadcast by
`updateProgress` (and served by `GET /api/status`) carries
`skipped = 0` and `errors = 0` — the run publishes only `created` and
`updated` live — and the two counters receive their true totals only in
the final assignment after the last group. -/
theorem C10_live_counters (gs : List GroupActivity) (mode t0 : String)
    (c u sk er : ℕ) :
    (∀ s ∈ broadcastStates (startedState mode "ssh" t0) (sshRunUpds gs),
      (apiStatus s).skipped = 0 ∧ (apiStatus s).errors = 0) ∧
    (∀ s : SyncState,
      (finalAssign s c u sk er).skipped = sk ∧ (finalAssign s c u sk er).errors = er ∧
      (finalAssign s c u sk er).created = c ∧ (finalAssign s c u sk er).updated = u) := by
  constructor
  · intro s hs
    have h := broadcastStates_skipped_errors (sshRunUpds gs)
      (startedState mode "ssh" t0) s hs
    have h0 : (startedState mode "ssh" t0).skipped = 0 ∧
        (startedState mode "ssh" t0).errors = 0 := by
      simp [startedState, resetState]
    exact ⟨by rw [apiStatus, h.1, h0.1], by rw [apiStatus, h.2, h0.2]⟩
  · intro s
    simp [finalAssign]

/-- Witness for C10: a one-group run publishing one update total and one
create total; the first broadcast state (phase `starting`) reports zero
skipped and errors, and the final assignment carries the true totals. -/
theorem C10_live_counters_witness :
    (apiStatus { startedState "full" "ssh" "t" with phase := "starting" }).skipped = 0 ∧
    (apiStatus { startedState "full" "ssh" "t" with phase := "starting" }).errors = 0 ∧
    (finalAssign (startedState "full" "ssh" "t") 1 2 3 4).skipped = 3 ∧
    (finalAssign (startedState "full" "ssh" "t") 1 2 3 4).errors = 4 := by
  have h := C10_live_counters [⟨"Base Set", [1], [1]⟩] "full" "t" 1 2 3 4
  have hmem : ({ startedState "full" "ssh" "t" with phase := "starting" } : SyncState) ∈
      broadcastStates (startedState "full" "ssh" "t")
        (sshRunUpds [⟨"Base Set", [1], [1]⟩]) := by decide
  have h1 := h.1 _ hmem
  have h2 := h.2 (startedState "full" "ssh" "t")
  exact ⟨h1.1, h1.2, h2.1, h2.2.1⟩

end TcgSync
